import Mathlib

/-!
Shallow embedding of `src/remove_bg.py` (a Streamlit background-removal app).

The repository code is:
  * `remove_background(input_image, background_color=None)` — normalizes the
    input to RGBA mode, converts it to a numpy array, calls the external
    `rembg.remove` segmentation oracle, and, if a background color is given,
    pastes the segmented image (using its own alpha band as the mask) onto a
    freshly allocated canvas of the input's size filled with that color.
  * `main()` — the per-upload handling: decode the upload with `Image.open`
    (outside the try block), then inside a try block run `remove_background`,
    encode the result as PNG and offer it for download as
    `processed_image.png` with MIME type `image/png`; any exception from the
    try block is turned into `st.error("An error occurred: " ++ e)`.

External dependencies (PIL and rembg) are modelled by their documented or
source semantics: `Image.convert("RGBA")` (Pillow `Convert.c`), `Image.new`
with an RGB fill on an RGBA canvas (alpha filled with 255), and
`Image.paste` with an 8-bit mask, which blends every channel — alpha
included — with Pillow's `MULDIV255` rounding (Pillow `Paste.c`). The
segmentation oracle `rembg.remove` is an opaque parameter.
-/

namespace RemoveBg

/-- One pixel, stored canonically as four 8-bit channels. For mode `L`/`LA`
images the gray value is stored in `r`; for modes without an alpha channel the
`a` field is unused until conversion. -/
structure RGBA where
  r : Nat
  g : Nat
  b : Nat
  a : Nat
deriving DecidableEq, Repr

/-- The PIL image modes relevant to this application (uploads decode to
`L`, `LA`, `RGB` or `RGBA`; `RGBa` is the premultiplied variant). -/
inductive Mode where
  | L
  | LA
  | RGB
  | RGBA
  | RGBa
deriving DecidableEq, Repr

/-- Whether a PIL mode carries an alpha channel. -/
def Mode.hasAlpha : Mode → Bool
  | .LA => true
  | .RGBA => true
  | .RGBa => true
  | _ => false

/-- A decoded PIL image: a mode tag, dimensions, and a pixel grid. -/
structure Image where
  mode : Mode
  width : Nat
  height : Nat
  px : Nat → Nat → RGBA

/-- The RGB triple produced by `PIL.ImageColor.getrgb` on the hex string from
the Streamlit color picker. -/
structure Color where
  r : Nat
  g : Nat
  b : Nat
deriving DecidableEq, Repr

/-- Un-premultiply one color channel, as Pillow's `rgba2rgbA` does when
converting mode `RGBa` to `RGBA` (alpha 0 and 255 are passed through, other
alphas divide and clip to 255). -/
def unpremultiply (v a : Nat) : Nat :=
  if a = 0 ∨ a = 255 then v else min 255 (255 * v / a)

/-- PIL `Image.convert("RGBA")` on the modes of `Mode`: modes without alpha
get a uniformly opaque alpha channel; `LA` keeps its alpha; `RGBa` is
un-premultiplied, keeping its alpha. Dimensions are unchanged. -/
def Image.convertRGBA (img : Image) : Image :=
  { mode := Mode.RGBA
    width := img.width
    height := img.height
    px := fun x y =>
      let p := img.px x y
      match img.mode with
      | Mode.RGBA => p
      | Mode.RGB => ⟨p.r, p.g, p.b, 255⟩
      | Mode.L => ⟨p.r, p.r, p.r, 255⟩
      | Mode.LA => ⟨p.r, p.r, p.r, p.a⟩
      | Mode.RGBa => ⟨unpremultiply p.r p.a, unpremultiply p.g p.a,
                      unpremultiply p.b p.a, p.a⟩ }

/-- Lines 19-20 of `remove_bg.py`: `if input_image.mode != 'RGBA':
input_image = input_image.convert('RGBA')`. -/
def normalize (img : Image) : Image :=
  if img.mode ≠ Mode.RGBA then img.convertRGBA else img

/-- A `(height, width, 4)` uint8 numpy array, as produced by `np.array` on an
RGBA image. -/
structure NDArray where
  width : Nat
  height : Nat
  px : Nat → Nat → RGBA

/-- Line 23: `np.array(input_image)` on an RGBA-mode image copies the pixel
grid. -/
def np_array (img : Image) : NDArray :=
  ⟨img.width, img.height, img.px⟩

/-- `PIL.Image.fromarray` on a `(h, w, 4)` uint8 array yields an RGBA image
with the same pixels. -/
def Image.fromarray (a : NDArray) : Image :=
  ⟨Mode.RGBA, a.width, a.height, a.px⟩

/-- Pillow's `MULDIV255` macro: `tmp = a*b + 128; ((tmp >> 8) + tmp) >> 8`,
an exact rounding division of `a * b` by 255 for 8-bit inputs. -/
def muldiv255 (a b : Nat) : Nat :=
  ((a * b + 128) / 256 + (a * b + 128)) / 256

/-- Pillow's `BLEND` for one channel under an 8-bit mask value `m`
(Pillow `Paste.c`): `MULDIV255(bg, 255 - m) + MULDIV255(fg, m)`. -/
def blendChannel (bg fg m : Nat) : Nat :=
  muldiv255 bg (255 - m) + muldiv255 fg m

/-- Blend a whole pixel; `Image.paste` with a mask blends every channel,
the alpha channel included. -/
def blendPixel (bg fg : RGBA) (m : Nat) : RGBA :=
  ⟨blendChannel bg.r fg.r m, blendChannel bg.g fg.g m,
   blendChannel bg.b fg.b m, blendChannel bg.a fg.a m⟩

/-- Line 31: `Image.new('RGBA', size, background_color)` with an RGB triple
fills every pixel with the color at alpha 255. -/
def Image.new (w h : Nat) (c : Color) : Image :=
  { mode := Mode.RGBA
    width := w
    height := h
    px := fun _ _ => ⟨c.r, c.g, c.b, 255⟩ }

/-- Line 32: `canvas.paste(im, (0, 0), mask)` where `mask` is an RGBA image
whose alpha band is used as the 8-bit paste mask. The canvas keeps its mode
and size; inside the pasted region every channel is blended, outside it the
canvas is untouched. -/
def Image.pasteMask (canvas im mask : Image) : Image :=
  { canvas with
    px := fun x y =>
      if x < im.width ∧ y < im.height then
        blendPixel (canvas.px x y) (im.px x y) ((mask.px x y).a)
      else canvas.px x y }

/-- Lines 19-38 of `remove_bg.py`: `remove_background(input_image,
background_color)`, with the `rembg.remove` segmentation oracle as a
parameter. -/
def remove_background (oracle : NDArray → NDArray) (input0 : Image)
    (background_color : Option Color) : Image :=
  let input_image := normalize input0
  let input_array := np_array input_image
  let output_array := oracle input_array
  match background_color with
  | some c =>
      let colored_background := Image.new input_image.width input_image.height c
      let fg := Image.fromarray output_array
      let pasted := colored_background.pasteMask fg fg
      Image.fromarray (np_array pasted)
  | none => Image.fromarray output_array

/-- Default image, used only as the out-of-range value of heap lookups. -/
def Image.default : Image :=
  ⟨Mode.RGBA, 0, 0, fun _ _ => ⟨0, 0, 0, 0⟩⟩

/-- A heap of live PIL image objects, indexed by references. Python-level
aliasing is explicit: an operation that returns a new image allocates, and
in-place `paste` updates its receiver's slot. -/
abbrev Heap := List Image

/-- Read the image at a reference. -/
def Heap.get (h : Heap) (r : Nat) : Image :=
  h.getD r Image.default

/-- Allocate a fresh image object, returning the new heap and its
reference. -/
def Heap.alloc (h : Heap) (img : Image) : Heap × Nat :=
  (h ++ [img], h.length)

/-- Overwrite the object at a reference (in-place mutation, as
`Image.paste` does to its receiver). -/
def Heap.set (h : Heap) (r : Nat) (img : Image) : Heap :=
  List.set h r img

/-- Heap-level execution of `remove_background` (lines 19-38): the caller
passes a reference to its image object. `convert` (line 20) allocates a new
object and rebinds the local `input_image`; `np.array` (lines 23, 33) reads;
`Image.new` (line 31) allocates; `paste` (line 32) mutates the freshly
allocated canvas in place; `Image.fromarray` (lines 32, 36) allocates.
Returns the final heap and a reference to the result object. -/
def remove_background_heap (oracle : NDArray → NDArray) (h0 : Heap)
    (inputRef : Nat) (background_color : Option Color) : Heap × Nat :=
  let input0 := h0.get inputRef
  let (h1, curRef) :=
    if input0.mode ≠ Mode.RGBA then h0.alloc input0.convertRGBA
    else (h0, inputRef)
  let input_image := h1.get curRef
  let input_array := np_array input_image
  let output_array := oracle input_array
  match background_color with
  | some c =>
      let (h2, bgRef) :=
        h1.alloc (Image.new input_image.width input_image.height c)
      let fg := Image.fromarray output_array
      let h3 := h2.set bgRef ((h2.get bgRef).pasteMask fg fg)
      let out_array := np_array (h3.get bgRef)
      let (h4, outRef) := h3.alloc (Image.fromarray out_array)
      (h4, outRef)
  | none =>
      let (h2, outRef) := h1.alloc (Image.fromarray output_array)
      (h2, outRef)

/-- Exception-aware mirror of `remove_background`, for the per-upload
handling in `main`: the segmentation oracle (`rembg.remove`) may raise, and
the exception propagates out of `remove_background`. -/
def remove_background_E (oracleE : NDArray → Except String NDArray)
    (input0 : Image) (background_color : Option Color) :
    Except String Image :=
  let input_image := normalize input0
  match oracleE (np_array input_image) with
  | Except.error e => Except.error e
  | Except.ok output_array =>
    match background_color with
    | some c =>
        let colored_background :=
          Image.new input_image.width input_image.height c
        let fg := Image.fromarray output_array
        Except.ok (Image.fromarray (np_array (colored_background.pasteMask fg fg)))
    | none => Except.ok (Image.fromarray output_array)

/-- What the user can see at the end of one upload interaction: either the
processed image together with its download button (PNG bytes, file name,
MIME type), or the error banner produced by `st.error`. -/
inductive UploadView where
  | success (pngBytes : List Nat) (fileName : String) (mime : String)
  | errorShown (message : String)
deriving DecidableEq, Repr

/-- Lines 70-105 of `remove_bg.py`: the per-upload handling inside `main`.
`decode` is the outcome of `Image.open(uploaded_file)` at line 72, which is
OUTSIDE the try block; `pngE` is the outcome of `output_image.save(...,
format="PNG")`. Inside the try block, a raised exception becomes
`st.error(f"An error occurred: ...")`; an `Except.error` result of the whole
function is an exception that escaped the per-upload handling uncaught. -/
def process_upload (decode : Except String Image)
    (oracleE : NDArray → Except String NDArray)
    (pngE : Image → Except String (List Nat)) (background_color : Option Color) :
    Except String UploadView :=
  match decode with
  | Except.error e => Except.error e
  | Except.ok input_image =>
    let tried : Except String UploadView :=
      match remove_background_E oracleE input_image background_color with
      | Except.error e => Except.error e
      | Except.ok output_image =>
        match pngE output_image with
        | Except.error e => Except.error e
        | Except.ok img_byte =>
          Except.ok (UploadView.success img_byte "processed_image.png" "image/png")
    match tried with
    | Except.ok v => Except.ok v
    | Except.error e => Except.ok (UploadView.errorShown ("An error occurred: " ++ e))

/-- The segmented intermediate result: what `rembg.remove` returns on the
normalized input (line 26 of `remove_bg.py`). -/
def segmented (oracle : NDArray → NDArray) (img : Image) : NDArray :=
  oracle (np_array (normalize img))

/-! ### Concrete test fixtures for witnesses and counterexamples -/

/-- A 2x2 RGB image (no alpha channel). -/
def testRGB : Image :=
  ⟨Mode.RGB, 2, 2, fun _ _ => ⟨10, 20, 30, 0⟩⟩

/-- A 2x2 RGBA image with a non-opaque alpha channel. -/
def testRGBA : Image :=
  ⟨Mode.RGBA, 2, 2, fun _ _ => ⟨10, 20, 30, 200⟩⟩

/-- A 1x1 LA image (gray 90, alpha 7). -/
def testLA : Image :=
  ⟨Mode.LA, 1, 1, fun _ _ => ⟨90, 0, 0, 7⟩⟩

/-- A segmentation oracle that classifies every pixel as background
(alpha 0). -/
def testOracleClear : NDArray → NDArray :=
  fun a => ⟨a.width, a.height, fun _ _ => ⟨5, 6, 7, 0⟩⟩

/-- A segmentation oracle that returns an intermediate (edge) alpha of 128
everywhere. -/
def testOracleHalf : NDArray → NDArray :=
  fun a => ⟨a.width, a.height, fun _ _ => ⟨5, 6, 7, 128⟩⟩

/-- A segmentation oracle that keeps every pixel as opaque foreground. -/
def testOracleKeep : NDArray → NDArray :=
  fun a => ⟨a.width, a.height, fun x y =>
    ⟨(a.px x y).r, (a.px x y).g, (a.px x y).b, 255⟩⟩

/-- The green background color of the spec's custom-color scenario. -/
def testGreen : Color :=
  ⟨0, 255, 0⟩

/-! ### Helper lemmas -/

theorem muldiv255_zero_right (a : Nat) : muldiv255 a 0 = 0 := by
  simp [muldiv255]

theorem muldiv255_255_right (a : Nat) (h : a ≤ 255) : muldiv255 a 255 = a := by
  unfold muldiv255
  omega

theorem blendChannel_mask_zero (bg fg : Nat) (h : bg ≤ 255) :
    blendChannel bg fg 0 = bg := by
  unfold blendChannel
  rw [muldiv255_zero_right, Nat.sub_zero, muldiv255_255_right bg h]
  omega

theorem blendChannel_mask_full (bg fg : Nat) (h : fg ≤ 255) :
    blendChannel bg fg 255 = fg := by
  unfold blendChannel
  rw [Nat.sub_self, muldiv255_zero_right, muldiv255_255_right fg h]
  omega

theorem blendPixel_mask_zero (bg fg : RGBA) (hr : bg.r ≤ 255) (hg : bg.g ≤ 255)
    (hb : bg.b ≤ 255) (ha : bg.a ≤ 255) : blendPixel bg fg 0 = bg := by
  unfold blendPixel
  rw [blendChannel_mask_zero _ _ hr, blendChannel_mask_zero _ _ hg,
    blendChannel_mask_zero _ _ hb, blendChannel_mask_zero _ _ ha]

theorem normalize_width (img : Image) : (normalize img).width = img.width := by
  unfold normalize
  split <;> rfl

theorem normalize_height (img : Image) : (normalize img).height = img.height := by
  unfold normalize
  split <;> rfl

theorem Heap.get_append (h t : Heap) (r : Nat) (hr : r < h.length) :
    Heap.get (h ++ t) r = h.get r := by
  induction h generalizing r with
  | nil => simp at hr
  | cons a l ih =>
    cases r with
    | zero => rfl
    | succ n =>
      simp only [List.cons_append, Heap.get, List.getD_cons_succ]
      exact ih n (by simpa using Nat.lt_of_succ_lt_succ hr)

theorem Heap.get_alloc_fresh (h : Heap) (img : Image) :
    Heap.get (h ++ [img]) h.length = img := by
  induction h with
  | nil => rfl
  | cons a l ih =>
    simpa only [List.cons_append, List.length_cons, Heap.get,
      List.getD_cons_succ] using ih

theorem Heap.get_set_ne (h : Heap) (i r : Nat) (img : Image) (hne : r ≠ i) :
    Heap.get (Heap.set h i img) r = h.get r := by
  induction h generalizing i r with
  | nil => rfl
  | cons a l ih =>
    cases i with
    | zero =>
      cases r with
      | zero => exact absurd rfl hne
      | succ n => rfl
    | succ j =>
      cases r with
      | zero => rfl
      | succ n =>
        simp only [Heap.set, List.set, Heap.get, List.getD_cons_succ]
        exact ih j n (fun hc => hne (by rw [hc]))

theorem Heap.get_set_self (h : Heap) (i : Nat) (img : Image)
    (hi : i < h.length) : Heap.get (Heap.set h i img) i = img := by
  induction h generalizing i with
  | nil => simp at hi
  | cons a l ih =>
    cases i with
    | zero => rfl
    | succ j =>
      simp only [Heap.set, List.set, Heap.get, List.getD_cons_succ]
      exact ih j (by simpa using Nat.lt_of_succ_lt_succ hi)

theorem Heap.length_set (h : Heap) (i : Nat) (img : Image) :
    (Heap.set h i img).length = h.length := by
  simp [Heap.set]

/-! ### Claim theorems -/

/-- C1: for every input image and requested solid color (with 8-bit
components), every pixel location that is fully transparent (alpha 0) in the
segmented intermediate result equals exactly that color at full opacity in
the final output of `remove_background`. -/
theorem C1_transparent_location_gets_color (oracle : NDArray → NDArray)
    (img : Image) (c : Color) (x y : Nat)
    (hcr : c.r ≤ 255) (hcg : c.g ≤ 255) (hcb : c.b ≤ 255)
    (ha : ((segmented oracle img).px x y).a = 0) :
    (remove_background oracle img (some c)).px x y = ⟨c.r, c.g, c.b, 255⟩ := by
  have hpx : (remove_background oracle img (some c)).px x y =
      if x < (segmented oracle img).width ∧ y < (segmented oracle img).height then
        blendPixel ⟨c.r, c.g, c.b, 255⟩ ((segmented oracle img).px x y)
          (((segmented oracle img).px x y).a)
      else ⟨c.r, c.g, c.b, 255⟩ := rfl
  rw [hpx, ha]
  split
  · exact blendPixel_mask_zero _ _ hcr hcg hcb (Nat.le_refl 255)
  · rfl

/-- C1 witness: concrete instance of `C1_transparent_location_gets_color` on
a 2x2 RGB image, an all-background oracle and the green color. -/
theorem C1_witness :
    testGreen.r ≤ 255 ∧ testGreen.g ≤ 255 ∧ testGreen.b ≤ 255
    ∧ ((segmented testOracleClear testRGB).px 0 0).a = 0
    ∧ (remove_background testOracleClear testRGB (some testGreen)).px 0 0
        = ⟨0, 255, 0, 255⟩ :=
  ⟨by decide, by decide, by decide, by decide,
    C1_transparent_location_gets_color testOracleClear testRGB testGreen 0 0
      (by decide) (by decide) (by decide) (by decide)⟩

/-- C3 counterexample: with background color requested, a pixel whose
segmented alpha is the intermediate value 128 is NOT fully opaque in the
output (its alpha is 191, by Pillow's paste blending of the alpha channel). -/
theorem C3_counterexample :
    ((remove_background testOracleHalf testRGBA (some testGreen)).px 0 0).a
      ≠ 255 := by
  decide

/-- C3 (amended): with a background color requested, an output pixel is
fully opaque when its segmented alpha is 0 or 255 (and outside the pasted
region); in general its alpha is the paste blend
`blendChannel 255 a a = muldiv255 255 (255 - a) + muldiv255 a a` of the
canvas alpha 255 with the segmented alpha `a`, which is below 255 for
intermediate `a`. Without a background color the output preserves the
segmentation transparency unchanged. -/
theorem C3_opacity (oracle : NDArray → NDArray) (img : Image)
    (c : Color) (x y : Nat) :
    ((((segmented oracle img).px x y).a = 0
        ∨ ((segmented oracle img).px x y).a = 255) →
      ((remove_background oracle img (some c)).px x y).a = 255)
    ∧ ((remove_background oracle img (some c)).px x y).a =
        (if x < (segmented oracle img).width ∧ y < (segmented oracle img).height
         then blendChannel 255 (((segmented oracle img).px x y).a)
            (((segmented oracle img).px x y).a)
         else 255)
    ∧ remove_background oracle img none
        = Image.fromarray (segmented oracle img) := by
  have hpx : (remove_background oracle img (some c)).px x y =
      if x < (segmented oracle img).width ∧ y < (segmented oracle img).height then
        blendPixel ⟨c.r, c.g, c.b, 255⟩ ((segmented oracle img).px x y)
          (((segmented oracle img).px x y).a)
      else ⟨c.r, c.g, c.b, 255⟩ := rfl
  refine ⟨?_, ?_, rfl⟩
  · intro hsa
    rw [hpx]
    by_cases hxy : x < (segmented oracle img).width
        ∧ y < (segmented oracle img).height
    · rw [if_pos hxy]
      show blendChannel 255 (((segmented oracle img).px x y).a)
        (((segmented oracle img).px x y).a) = 255
      rcases hsa with hsa | hsa <;> simp only [hsa] <;> decide
    · rw [if_neg hxy]
  · rw [hpx]
    by_cases hxy : x < (segmented oracle img).width
        ∧ y < (segmented oracle img).height
    · simp only [if_pos hxy]
      rfl
    · simp only [if_neg hxy]

/-- C3 witness: concrete instance of `C3_opacity` where the segmented alpha
is 0, giving a fully opaque output pixel. -/
theorem C3_witness :
    ((segmented testOracleClear testRGBA).px 0 0).a = 0
    ∧ ((remove_background testOracleClear testRGBA (some testGreen)).px 0 0).a
        = 255 :=
  ⟨by decide,
    (C3_opacity testOracleClear testRGBA testGreen 0 0).1 (Or.inl (by decide))⟩

/-- C4: assuming the segmentation oracle returns a grid with the input's
dimensions (as the spec states it does), the output of `remove_background`
has the same width and height as the input, with or without a background
color. -/
theorem C4_output_size_matches_input (oracle : NDArray → NDArray)
    (img : Image) (c : Option Color)
    (hw : (segmented oracle img).width = img.width)
    (hh : (segmented oracle img).height = img.height) :
    (remove_background oracle img c).width = img.width
    ∧ (remove_background oracle img c).height = img.height := by
  cases c with
  | none => exact ⟨hw, hh⟩
  | some col => exact ⟨normalize_width img, normalize_height img⟩

/-- C4 witness: concrete instance of `C4_output_size_matches_input` with a
dimension-preserving oracle. -/
theorem C4_witness :
    (segmented testOracleKeep testRGB).width = testRGB.width
    ∧ (segmented testOracleKeep testRGB).height = testRGB.height
    ∧ (remove_background testOracleKeep testRGB (some testGreen)).width
        = testRGB.width
    ∧ (remove_background testOracleKeep testRGB (some testGreen)).height
        = testRGB.height :=
  ⟨by decide, by decide,
    (C4_output_size_matches_input testOracleKeep testRGB (some testGreen)
      (by decide) (by decide)).1,
    (C4_output_size_matches_input testOracleKeep testRGB (some testGreen)
      (by decide) (by decide)).2⟩

/-- C5: after normalization the image passed to the segmentation oracle is
in RGBA mode (so it has an alpha channel); for an input whose mode lacked an
alpha channel, the added alpha channel is uniformly opaque (255 at every
pixel) and the dimensions are unchanged. -/
theorem C5_normalized_has_alpha (img : Image) (x y : Nat) :
    (normalize img).mode = Mode.RGBA
    ∧ (normalize img).mode.hasAlpha = true
    ∧ (img.mode.hasAlpha = false →
        ((normalize img).px x y).a = 255
        ∧ (normalize img).width = img.width
        ∧ (normalize img).height = img.height) := by
  obtain ⟨m, w, h, p⟩ := img
  cases m with
  | L => exact ⟨rfl, rfl, fun _ => ⟨rfl, rfl, rfl⟩⟩
  | LA => exact ⟨rfl, rfl, fun hal => Bool.noConfusion hal⟩
  | RGB => exact ⟨rfl, rfl, fun _ => ⟨rfl, rfl, rfl⟩⟩
  | RGBA => exact ⟨rfl, rfl, fun hal => Bool.noConfusion hal⟩
  | RGBa => exact ⟨rfl, rfl, fun hal => Bool.noConfusion hal⟩

/-- C5 witness: concrete instance of `C5_normalized_has_alpha` on an RGB
(alpha-less) image. -/
theorem C5_witness :
    testRGB.mode.hasAlpha = false
    ∧ ((normalize testRGB).px 0 0).a = 255 :=
  ⟨by decide, ((C5_normalized_has_alpha testRGB 0 0).2.2 (by decide)).1⟩

/-- C6: when no background color is provided, the output of
`remove_background` is the segmentation oracle's output unchanged: equal as
an image (up to the RGBA mode tag `Image.fromarray` re-attaches), with the
identical pixel grid and dimensions. -/
theorem C6_no_color_keeps_oracle_output (oracle : NDArray → NDArray)
    (img : Image) :
    remove_background oracle img none = Image.fromarray (segmented oracle img)
    ∧ (remove_background oracle img none).px = (segmented oracle img).px
    ∧ (remove_background oracle img none).width = (segmented oracle img).width
    ∧ (remove_background oracle img none).height
        = (segmented oracle img).height :=
  ⟨rfl, rfl, rfl, rfl⟩

/-- C9: with a background color the output dimensions equal the (normalized)
input's dimensions, regardless of the dimensions of the oracle's output;
without a color the output dimensions equal the oracle output's
dimensions. -/
theorem C9_dimension_provenance (oracle : NDArray → NDArray) (img : Image)
    (c : Color) :
    ((remove_background oracle img (some c)).width = img.width
      ∧ (remove_background oracle img (some c)).height = img.height)
    ∧ ((remove_background oracle img none).width = (segmented oracle img).width
      ∧ (remove_background oracle img none).height
          = (segmented oracle img).height) :=
  ⟨⟨normalize_width img, normalize_height img⟩, rfl, rfl⟩

/-- C10: normalization converts exactly when the mode is not RGBA, and for a
mode that already carries an alpha channel the conversion preserves every
pixel's alpha value (so uniform opacity after normalization is only
guaranteed for alpha-less inputs). -/
theorem C10_convert_preserves_alpha (img : Image) (x y : Nat) :
    (img.mode ≠ Mode.RGBA → normalize img = img.convertRGBA)
    ∧ (img.mode = Mode.RGBA → normalize img = img)
    ∧ (img.mode.hasAlpha = true →
        ((normalize img).px x y).a = (img.px x y).a) := by
  obtain ⟨m, w, h, p⟩ := img
  cases m with
  | L => exact ⟨fun _ => rfl, fun he => Mode.noConfusion he,
      fun hal => Bool.noConfusion hal⟩
  | LA => exact ⟨fun _ => rfl, fun he => Mode.noConfusion he, fun _ => rfl⟩
  | RGB => exact ⟨fun _ => rfl, fun he => Mode.noConfusion he,
      fun hal => Bool.noConfusion hal⟩
  | RGBA => exact ⟨fun hne => absurd rfl hne, fun _ => rfl, fun _ => rfl⟩
  | RGBa => exact ⟨fun _ => rfl, fun he => Mode.noConfusion he, fun _ => rfl⟩

/-- C10 witness: concrete instances of `C10_convert_preserves_alpha` on an
LA image (alpha 7 preserved, conversion applied) and an RGBA image (left
untouched). -/
theorem C10_witness :
    normalize testLA = testLA.convertRGBA
    ∧ ((normalize testLA).px 0 0).a = (testLA.px 0 0).a
    ∧ normalize testRGBA = testRGBA :=
  ⟨(C10_convert_preserves_alpha testLA 0 0).1 (by decide),
    (C10_convert_preserves_alpha testLA 0 0).2.2 (by decide),
    (C10_convert_preserves_alpha testRGBA 0 0).2.1 rfl⟩

/-- A never-failing exception-aware oracle built over `testOracleKeep`. -/
def testOracleE : NDArray → Except String NDArray :=
  fun a => Except.ok (testOracleKeep a)

/-- An always-failing segmentation oracle (e.g. the model cannot run). -/
def testOracleFailE : NDArray → Except String NDArray :=
  fun _ => Except.error "segmentation failed"

/-- A stand-in PNG encoder used by concrete instances: it never fails and
returns the dimensions as bytes. -/
def testPngE : Image → Except String (List Nat) :=
  fun img => Except.ok [img.width, img.height]

/-- C2 counterexample: a decoding failure of `Image.open` (line 72) is NOT
caught by the per-upload handling: no user-visible view is produced, the
exception escapes, because the `try` block only starts at line 82. -/
theorem C2_counterexample :
    ¬ ∃ v, process_upload (Except.error "cannot identify image file")
        testOracleE testPngE none = Except.ok v := by
  rintro ⟨v, hv⟩
  exact Except.noConfusion hv

/-- C2 (amended): once `Image.open` has succeeded, every exception raised
inside the try block (segmentation, compositing, PNG encoding) is caught and
converted into the `st.error` banner `An error occurred: ...`, and the
per-upload handling returns a view instead of propagating; decoding failures,
raised before the try block, are not covered. -/
theorem C2_try_block_catches (img : Image)
    (oracleE : NDArray → Except String NDArray)
    (pngE : Image → Except String (List Nat)) (c : Option Color) :
    (∃ v, process_upload (Except.ok img) oracleE pngE c = Except.ok v)
    ∧ (∀ e, remove_background_E oracleE img c = Except.error e →
        process_upload (Except.ok img) oracleE pngE c
          = Except.ok (UploadView.errorShown ("An error occurred: " ++ e))) := by
  constructor
  · cases hrb : remove_background_E oracleE img c with
    | error e =>
      exact ⟨UploadView.errorShown ("An error occurred: " ++ e),
        by simp [process_upload, hrb]⟩
    | ok out =>
      cases hp : pngE out with
      | error e =>
        exact ⟨UploadView.errorShown ("An error occurred: " ++ e),
          by simp [process_upload, hrb, hp]⟩
      | ok bs =>
        exact ⟨UploadView.success bs "processed_image.png" "image/png",
          by simp [process_upload, hrb, hp]⟩
  · intro e he
    simp [process_upload, he]

/-- C2 witness: concrete instance of `C2_try_block_catches` with a failing
segmentation oracle: the session shows the error banner. -/
theorem C2_witness :
    remove_background_E testOracleFailE testRGBA none
        = Except.error "segmentation failed"
    ∧ process_upload (Except.ok testRGBA) testOracleFailE testPngE none
        = Except.ok (UploadView.errorShown
            ("An error occurred: " ++ "segmentation failed")) :=
  ⟨rfl, (C2_try_block_catches testRGBA testOracleFailE testPngE none).2
    "segmentation failed" rfl⟩

/-- C8: for a successfully processed upload, the download button offers
exactly the PNG encoding of the processed image, under the fixed file name
`processed_image.png` and MIME type `image/png`. -/
theorem C8_download_offer (img : Image)
    (oracleE : NDArray → Except String NDArray)
    (pngE : Image → Except String (List Nat)) (c : Option Color)
    (out : Image) (bs : List Nat)
    (h1 : remove_background_E oracleE img c = Except.ok out)
    (h2 : pngE out = Except.ok bs) :
    process_upload (Except.ok img) oracleE pngE c
      = Except.ok (UploadView.success bs "processed_image.png" "image/png") := by
  simp [process_upload, h1, h2]

/-- C8 witness: concrete instance of `C8_download_offer` on a successful
pipeline. -/
theorem C8_witness :
    remove_background_E testOracleE testRGBA none
        = Except.ok (Image.fromarray (testOracleKeep (np_array (normalize testRGBA))))
    ∧ testPngE (Image.fromarray (testOracleKeep (np_array (normalize testRGBA))))
        = Except.ok [2, 2]
    ∧ process_upload (Except.ok testRGBA) testOracleE testPngE none
        = Except.ok (UploadView.success [2, 2] "processed_image.png" "image/png") :=
  ⟨rfl, rfl,
    C8_download_offer testRGBA testOracleE testPngE none
      (Image.fromarray (testOracleKeep (np_array (normalize testRGBA))))
      [2, 2] rfl rfl⟩

/-- C7: the heap-level execution of `remove_background` leaves the
caller-supplied image object untouched, and the returned object is the pure
transform of the caller's image. -/
theorem C7_no_input_mutation (oracle : NDArray → NDArray) (h : Heap)
    (r : Nat) (c : Option Color) (hr : r < h.length) :
    ((remove_background_heap oracle h r c).1).get r = h.get r
    ∧ ((remove_background_heap oracle h r c).1).get
        ((remove_background_heap oracle h r c).2)
      = remove_background oracle (h.get r) c := by
  by_cases hm : (Heap.get h r).mode ≠ Mode.RGBA
  · cases c with
    | some col =>
      simp only [remove_background_heap, remove_background, normalize,
        if_pos hm, Heap.alloc]
      generalize hcv : (Heap.get h r).convertRGBA = cv
      rw [Heap.get_alloc_fresh h cv]
      generalize hfg : Image.fromarray (oracle (np_array cv)) = fg
      generalize hcanvas : Image.new cv.width cv.height col = canvas
      rw [Heap.get_alloc_fresh (h ++ [cv]) canvas]
      have hbnd : List.length (h ++ [cv])
          < List.length (h ++ [cv] ++ [canvas]) := by simp
      rw [Heap.get_set_self (h ++ [cv] ++ [canvas]) (List.length (h ++ [cv]))
        (canvas.pasteMask fg fg) hbnd]
      refine ⟨?_, Heap.get_alloc_fresh _ _⟩
      have hb1 : r < List.length (Heap.set (h ++ [cv] ++ [canvas])
          (List.length (h ++ [cv])) (canvas.pasteMask fg fg)) := by
        simp [Heap.length_set]
        omega
      rw [Heap.get_append _ _ r hb1]
      have hne : r ≠ List.length (h ++ [cv]) := by
        simp
        omega
      rw [Heap.get_set_ne (h ++ [cv] ++ [canvas]) (List.length (h ++ [cv])) r
        (canvas.pasteMask fg fg) hne]
      have hb2 : r < List.length (h ++ [cv]) := by
        simp
        omega
      rw [Heap.get_append (h ++ [cv]) [canvas] r hb2,
        Heap.get_append h [cv] r hr]
    | none =>
      simp only [remove_background_heap, remove_background, normalize,
        if_pos hm, Heap.alloc]
      generalize hcv : (Heap.get h r).convertRGBA = cv
      rw [Heap.get_alloc_fresh h cv]
      refine ⟨?_, Heap.get_alloc_fresh _ _⟩
      have hb1 : r < List.length (h ++ [cv]) := by
        simp
        omega
      rw [Heap.get_append (h ++ [cv]) _ r hb1, Heap.get_append h [cv] r hr]
  · cases c with
    | some col =>
      simp only [remove_background_heap, remove_background, normalize,
        if_neg hm, Heap.alloc]
      generalize hfg : Image.fromarray (oracle (np_array (Heap.get h r))) = fg
      generalize hcanvas :
        Image.new (Heap.get h r).width (Heap.get h r).height col = canvas
      rw [Heap.get_alloc_fresh h canvas]
      have hbnd : List.length h < List.length (h ++ [canvas]) := by simp
      rw [Heap.get_set_self (h ++ [canvas]) (List.length h)
        (canvas.pasteMask fg fg) hbnd]
      refine ⟨?_, Heap.get_alloc_fresh _ _⟩
      have hb1 : r < List.length (Heap.set (h ++ [canvas]) (List.length h)
          (canvas.pasteMask fg fg)) := by
        simp [Heap.length_set]
        omega
      rw [Heap.get_append _ _ r hb1]
      have hne : r ≠ List.length h := by omega
      rw [Heap.get_set_ne (h ++ [canvas]) (List.length h) r
        (canvas.pasteMask fg fg) hne]
      rw [Heap.get_append h [canvas] r hr]
    | none =>
      simp only [remove_background_heap, remove_background, normalize,
        if_neg hm, Heap.alloc]
      exact ⟨Heap.get_append h _ r hr, Heap.get_alloc_fresh _ _⟩

/-- C7 witness: concrete instance of `C7_no_input_mutation` on a one-object
heap. -/
theorem C7_witness :
    0 < List.length ([testRGB] : Heap)
    ∧ ((remove_background_heap testOracleKeep [testRGB] 0 (some testGreen)).1).get 0
        = Heap.get [testRGB] 0 :=
  ⟨by decide,
    (C7_no_input_mutation testOracleKeep [testRGB] 0 (some testGreen)
      (by decide)).1⟩

end RemoveBg
